import Mathlib

/-!
Verification of the document-analysis core of the existdb-langserver
repository (`server/src/analyzed-document.ts`).  The TypeScript source is
shallowly embedded: strings are lists of characters, the stateful global
regular expressions (`funcDefRe`, `importRe`) are modelled by explicit
matcher functions threaded with their `lastIndex` state, JavaScript `Map`s
are insertion-ordered association lists, and the asynchronous remote
operations are pure functions of the stubbed transport outcome that also
return the list of side effects (remote requests, connectivity-status
notifications, log lines) they perform.
-/

namespace XQLS

abbrev Str := List Char

/-- JavaScript `\s` character class (ECMAScript WhiteSpace and LineTerminator). -/
def isJsWs (c : Char) : Bool :=
  decide (c.toNat ∈ ([0x09, 0x0a, 0x0b, 0x0c, 0x0d, 0x20, 0xa0, 0x1680, 0x2028,
      0x2029, 0x202f, 0x205f, 0x3000, 0xfeff] : List Nat)
    ∨ (0x2000 ≤ c.toNat ∧ c.toNat ≤ 0x200a))

/-- Character class of the source's `trimRe` (explicit whitespace list used by
`String.replace(trimRe, "")`; note it contains U+180E and lacks U+FEFF). -/
def isTrimWs (c : Char) : Bool :=
  decide ((0x09 ≤ c.toNat ∧ c.toNat ≤ 0x0d) ∨ c.toNat ∈ ([0x20, 0xa0, 0x1680, 0x180e,
      0x2028, 0x2029, 0x202f, 0x205f, 0x3000] : List Nat)
    ∨ (0x2000 ≤ c.toNat ∧ c.toNat ≤ 0x200a))

/-- JavaScript `\w` character class (no unicode flag). -/
def isWordChar (c : Char) : Bool :=
  decide (('A' ≤ c ∧ c ≤ 'Z') ∨ ('a' ≤ c ∧ c ≤ 'z') ∨ ('0' ≤ c ∧ c ≤ '9') ∨ c = '_')

def charAt (t : Str) (i : Nat) : Option Char := t[i]?

/-- The slice of `t` from index `a` (inclusive) to `b` (exclusive). -/
def slice (t : Str) (a b : Nat) : Str := (t.take b).drop a

/-- Embeds `text.substring(a, b)` of JavaScript: both arguments are clamped into
`[0, length]` and swapped when `a > b` (this is how `substring(offset, -1)`
behaves when `findMatchingParen` returns its `-1` sentinel). -/
def jsSubstring (t : Str) (a b : Int) : Str :=
  let n : Int := (t.length : Int)
  let a' := (max 0 (min a n)).toNat
  let b' := (max 0 (min b n)).toNat
  slice t (min a' b') (max a' b')

/-- First index `≥ p` at which `pred` fails (end of the maximal run), i.e. the
deterministic extent of a greedy character-class repetition. -/
def skipRun (pred : Char → Bool) (t : Str) (p : Nat) : Nat :=
  p + ((t.drop p).takeWhile pred).length

/-- Match a literal at position `p`, returning the position after it. -/
def litAt (t : Str) (p : Nat) (lit : Str) : Option Nat :=
  if lit.isPrefixOf (t.drop p) then some (p + lit.length) else none

/-- Embeds `\s+`: at least one whitespace character, taken greedily. -/
def ws1 (t : Str) (p : Nat) : Option Nat :=
  let q := skipRun isJsWs t p
  if q = p then none else some q

/-- Embeds `["']`: one single or double quote character. -/
def quoteAt (t : Str) (p : Nat) : Option Nat :=
  match charAt t p with
  | some c => if c == '"' || c == '\'' then some (p + 1) else none
  | none => none

def notQuote (c : Char) : Bool := !(c == '"') && !(c == '\'')

/-- Decimal digits of a number as JavaScript template interpolation prints it. -/
def natDigits (n : Nat) : Str := Nat.toDigits 10 n

/-!  The function-definition scanner regex

    `funcDefRe = /(?:\(:~(.*?):\))?\s*declare\s+((?:%[\w\:\-]+(?:\([^\)]*\))?\s*)*function\s+([^\(]+)\()/gsm`

is embedded as an anchored matcher tried at successive positions (leftmost
match), with the `g`-flag `lastIndex` state made explicit at every call
site.  Backtracking of the annotation star is resolved greedily, which
coincides with the regex whenever annotations are well formed.  -/

/-- Skip `(?:%[\w\:\-]+(?:\([^\)]*\))?\s*)*` starting at `p`. -/
def skipAnnots (t : Str) : Nat → Nat → Nat
  | 0, p => p
  | fuel + 1, p =>
    if charAt t p = some '%' then
      let q := skipRun (fun c => isWordChar c || c == ':' || c == '-') t (p + 1)
      if q = p + 1 then p
      else
        let r :=
          if charAt t q = some '(' then
            let e := skipRun (fun c => !(c == ')')) t (q + 1)
            if charAt t e = some ')' then e + 1 else q
          else q
        skipAnnots t fuel (skipRun isJsWs t r)
    else p

structure TailMatch where
  g2start : Nat
  name : Str
  lastIndex : Nat
deriving DecidableEq

/-- Match `\s*declare\s+((?:annotations)*function\s+([^\(]+)\()` at `p`.
`g2start` is where capture group 2 begins, `name` is capture group 3 and
`lastIndex` the position after the opening parenthesis. -/
def matchDeclTail (t : Str) (p : Nat) : Option TailMatch :=
  let p1 := skipRun isJsWs t p
  match litAt t p1 ("declare".data) with
  | none => none
  | some p2 =>
    let p3 := skipRun isJsWs t p2
    if p3 = p2 then none
    else
      let p4 := skipAnnots t (t.length + 1) p3
      match litAt t p4 ("function".data) with
      | none => none
      | some p5 =>
        let w := skipRun isJsWs t p5
        if w = p5 then none
        else
          let nEnd := skipRun (fun c => !(c == '(')) t w
          if nEnd = w then
            -- the whitespace run is followed directly by `(`: the regex
            -- backtracks one whitespace character into the greedy `[^\(]+`
            if charAt t w = some '(' ∧ p5 + 2 ≤ w then
              some ⟨p3, slice t (w - 1) w, w + 1⟩
            else none
          else
            if charAt t nEnd = some '(' then
              some ⟨p3, slice t w nEnd, nEnd + 1⟩
            else none

structure FuncMatch where
  doc : Option Str
  g2 : Str
  name : Str
  lastIndex : Nat
deriving DecidableEq

def tailToMatch (t : Str) (doc : Option Str) (tm : TailMatch) : FuncMatch :=
  ⟨doc, slice t tm.g2start tm.lastIndex, tm.name, tm.lastIndex⟩

/-- Ascending candidate positions for the lazy `(.*?):\)` of the doc-comment
group: every `k ≥ j` with `:` at `k` and `)` at `k + 1`. -/
def docEnds (t : Str) : Nat → Nat → List Nat
  | 0, _ => []
  | fuel + 1, k =>
    if t.length ≤ k then []
    else if charAt t k = some ':' ∧ charAt t (k + 1) = some ')' then
      k :: docEnds t fuel (k + 1)
    else docEnds t fuel (k + 1)

/-- Lazy backtracking over the candidate ends of the doc comment. -/
def tryDocCandidates (t : Str) (i : Nat) : List Nat → Option FuncMatch
  | [] => none
  | k :: ks =>
    match matchDeclTail t (k + 2) with
    | some tm => some (tailToMatch t (some (slice t (i + 3) k)) tm)
    | none => tryDocCandidates t i ks

/-- Anchored attempt of `funcDefRe` at position `i`: the optional doc-comment
group is tried first (with its lazy middle), then the alternative without. -/
def matchFuncDefAt (t : Str) (i : Nat) : Option FuncMatch :=
  let noDoc := (matchDeclTail t i).map (tailToMatch t none)
  if ("(:~".data).isPrefixOf (t.drop i) then
    match tryDocCandidates t i (docEnds t (t.length + 1) (i + 3)) with
    | some m => some m
    | none => noDoc
  else noDoc

/-- One `funcDefRe.exec(text)` with `lastIndex = i`: first anchored match at a
position `≥ i` (`none` corresponds to `exec` returning `null`, which resets
`lastIndex` to 0 at the call sites below). -/
def execFuncDef (t : Str) : Nat → Nat → Option FuncMatch
  | 0, _ => none
  | fuel + 1, i =>
    if t.length < i then none
    else
      match matchFuncDefAt t i with
      | some m => some m
      | none => execFuncDef t fuel (i + 1)

def execFuncDefFrom (t : Str) (l : Nat) : Option FuncMatch :=
  execFuncDef t (t.length + 1 - l) l

/-- Embeds `findMatchingParen(text, offset)`: depth scan from `offset` with initial
depth 1; returns the index of the closing parenthesis or `-1`. -/
def findMatchingParenLoop (t : Str) : Nat → Nat → Nat → Int
  | 0, _, _ => -1
  | fuel + 1, i, depth =>
    match charAt t i with
    | none => -1
    | some ch =>
      if ch == ')' then
        if depth = 1 then (i : Int) else findMatchingParenLoop t fuel (i + 1) (depth - 1)
      else if ch == '(' then findMatchingParenLoop t fuel (i + 1) (depth + 1)
      else findMatchingParenLoop t fuel (i + 1) depth

def findMatchingParen (t : Str) (offset : Nat) : Int :=
  findMatchingParenLoop t (t.length + 1) offset 1

/-- Embeds `argsStr.split(/\s*,\s*/)`: split at each comma together with the maximal
whitespace runs around it. -/
def jsSplitCommaWs : Nat → Str → List Str
  | 0, t => [t]
  | fuel + 1, t =>
    match t.findIdx? (· == ',') with
    | none => [t]
    | some c =>
      let wsBefore := ((t.take c).reverse.takeWhile isJsWs).length
      let piece := t.take (c - wsBefore)
      let rest := t.drop (c + 1)
      let rest2 := rest.drop ((rest.takeWhile isJsWs).length)
      piece :: jsSplitCommaWs fuel rest2

/-- First match of `paramRe = /\$[^\s]+/` in a parameter's text. -/
def paramFirst : Str → Option Str
  | [] => none
  | c :: rest =>
    if c == '$' then
      let run := rest.takeWhile (fun d => !(isJsWs d))
      if run.length = 0 then paramFirst rest else some ('$' :: run)
    else paramFirst rest

/-- Embeds `name.replace(trimRe, "")`: strip the leading and trailing whitespace runs. -/
def jsTrim (t : Str) : Str :=
  ((t.dropWhile isTrimWs).reverse.dropWhile isTrimWs).reverse

/-- Embeds `getLine(text, offset)`: newline count before `offset`. -/
def getLine (t : Str) (offset : Nat) : Nat :=
  ((t.take offset).filter (· == '\n')).length

/-- One snippet placeholder: the source pushes `'${' + `${i+1}:\\${param}` + '}'`,
i.e. a brace-delimited `n:\` followed by the matched parameter token. -/
def mkTemplate (n : Nat) (tok : Str) : Str :=
  '$' :: '{' :: (natDigits n ++ ':' :: '\\' :: tok) ++ ['}']

/-- Loop body of `getSnippet`: the placeholder for the parameter at index `i`
is numbered `i + 1`; parameters without a `paramRe` token are skipped. -/
def getSnippetTemplates : List Str → Nat → List Str
  | [], _ => []
  | a :: rest, i =>
    match paramFirst a with
    | some tok => mkTemplate (i + 1) tok :: getSnippetTemplates rest (i + 1)
    | none => getSnippetTemplates rest (i + 1)

def getSnippet (name : Str) (args : List Str) : Str :=
  name ++ '(' :: (List.intercalate (", ".data) (getSnippetTemplates args 0)) ++ [')']

/-- The argument-list handling shared by both scanners: split on commas when
one is present, else a single non-empty parameter or none. -/
def parseArgs (t : Str) (offset : Nat) (pEnd : Int) : List Str :=
  let argsStr := jsSubstring t (offset : Int) pEnd
  if argsStr.contains ',' then jsSplitCommaWs (argsStr.length + 1) argsStr
  else if argsStr ≠ [] then [argsStr] else []

structure Symbol where
  signature : Str
  type : Str
  name : Str
  snippet : Str
  documentation : Option Str
  location : Option (Int × Int)
deriving DecidableEq

/-- JavaScript truthiness of an optional string (`undefined` and `""` are falsy). -/
def truthy : Option Str → Bool
  | some d => !(d.isEmpty)
  | none => false

/-- The symbol built for one `funcDefRe` match (body of the `getLocalSymbols`
loop).  With `lineCount = false` the span is `(offset, end)` in character
offsets; with `lineCount = true` it is the line number twice. -/
def buildSymbol (t : Str) (m : FuncMatch) (lineCount : Bool) : Str × Symbol :=
  let offset := m.lastIndex
  let pEnd := findMatchingParen t offset
  let name := jsTrim m.name
  let args := parseArgs t offset pEnd
  let arity := args.length
  let signature := name ++ '(' :: (List.intercalate [','] args) ++ [')']
  let location : Int × Int :=
    if lineCount then ((getLine t offset : Int), (getLine t offset : Int))
    else ((offset : Int), pEnd)
  let key := name ++ '#' :: natDigits arity
  (key, { signature := signature, type := ("function".data), name := key,
          snippet := getSnippet name args,
          documentation := if truthy m.doc then m.doc else none,
          location := some location })

abbrev SymMap := List (Str × Symbol)

/-- Embeds `Map.set`: overwrite in place when the key exists, else append
(JavaScript `Map` preserves the original insertion position on overwrite). -/
def mapSet {V : Type} (m : List (Str × V)) (k : Str) (v : V) : List (Str × V) :=
  match m with
  | [] => [(k, v)]
  | (k', v') :: rest => if k' = k then (k, v) :: rest else (k', v') :: mapSet rest k v

def mapGet {V : Type} (m : List (Str × V)) (k : Str) : Option V :=
  match m with
  | [] => none
  | (k', v') :: rest => if k' = k then some v' else mapGet rest k

/-- The `getLocalSymbols` scan loop.  `l` is the shared `funcDefRe.lastIndex`
at entry; the returned number is its value when the loop ends (`exec`
returning `null` resets it to 0).  The guard mirrors `if (funcDef[2])`. -/
def getLocalSymbolsLoop (t : Str) (lineCount : Bool) : Nat → Nat → SymMap → SymMap × Nat
  | 0, _, m => (m, 0)
  | fuel + 1, l, m =>
    match execFuncDefFrom t l with
    | none => (m, 0)
    | some fd =>
      if fd.g2 ≠ [] then
        let e := buildSymbol t fd lineCount
        getLocalSymbolsLoop t lineCount fuel fd.lastIndex (mapSet m e.1 e.2)
      else getLocalSymbolsLoop t lineCount fuel fd.lastIndex m

/-- Embeds `AnalyzedDocument.getLocalSymbols(text, lineCount, map)` together with the
global `funcDefRe.lastIndex` it reads at entry and leaves behind. -/
def getLocalSymbols (t : Str) (lineCount : Bool) (m : SymMap) (l : Nat) : SymMap × Nat :=
  getLocalSymbolsLoop t lineCount (t.length + 1) l m

/-- The match sequence of one scan, in match order, without the map
(used to relate the map to the underlying sequence of definitions). -/
def scanEntriesLoop (t : Str) (lineCount : Bool) : Nat → Nat → List (Str × Symbol)
  | 0, _ => []
  | fuel + 1, l =>
    match execFuncDefFrom t l with
    | none => []
    | some fd =>
      if fd.g2 ≠ [] then
        buildSymbol t fd lineCount :: scanEntriesLoop t lineCount fuel fd.lastIndex
      else scanEntriesLoop t lineCount fuel fd.lastIndex

def scanEntries (t : Str) (l : Nat) : List (Str × Symbol) :=
  scanEntriesLoop t false (t.length + 1) l

/-- Embeds `AnalyzedDocument.getLocalSymbol(text, name, arity)`.  The source builds a
fresh per-name regex `re` on its first line but never uses it: the loop runs
the shared `funcDefRe`, and an early return leaves that regex's `lastIndex`
behind, so the state is threaded in and out here exactly as in the source. -/
def getLocalSymbolLoop (t : Str) (name : Str) (arity : Nat) :
    Nat → Nat → Option Symbol × Nat
  | 0, _ => (none, 0)
  | fuel + 1, l =>
    match execFuncDefFrom t l with
    | none => (none, 0)
    | some fd =>
      if fd.g2 ≠ [] then
        let offset := fd.lastIndex
        let pEnd := findMatchingParen t offset
        let fname := jsTrim fd.name
        let args := parseArgs t offset pEnd
        -- `const arity = args.length;` shadows the `arity` parameter, so the
        -- test `args.length === arity && fname === name` reduces to the name test
        let arity := args.length
        if args.length = arity ∧ fname = name then
          let line := getLine t offset
          (some { signature := name ++ '(' :: (List.intercalate [','] args) ++ [')'],
                  type := ("function".data),
                  name := name ++ '#' :: natDigits arity,
                  snippet := getSnippet name args,
                  documentation := if truthy fd.doc then fd.doc else none,
                  location := some ((line : Int), (line : Int)) }, fd.lastIndex)
        else getLocalSymbolLoop t name arity fuel fd.lastIndex
      else getLocalSymbolLoop t name arity fuel fd.lastIndex

def getLocalSymbol (t : Str) (name : Str) (arity : Nat) (l : Nat) : Option Symbol × Nat :=
  getLocalSymbolLoop t name arity (t.length + 1) l

/-!  Import scanning

    `importRe = /(import\s+module\s+namespace\s+[^=]+\s*=\s*["'][^"']+["']\s*(?:at\s+["'][^"']+["'])?\s*;)/g`
    `moduleRe = /import\s+module\s+namespace\s+([^=\s]+)\s*=\s*["']([^"']+)["']\s*at\s+["']([^"']+)["']\s*;/`
-/

/-- The optional `(?:at\s+["'][^"']+["'])?` group: taken greedily when it
matches in full, skipped otherwise. -/
def tryAtClause (t : Str) (p : Nat) : Option Nat :=
  match litAt t p ("at".data) with
  | none => none
  | some p1 =>
    match ws1 t p1 with
    | none => none
    | some p2 =>
      match quoteAt t p2 with
      | none => none
      | some q1 =>
        let s := skipRun notQuote t q1
        if s = q1 then none else quoteAt t s

/-- Anchored attempt of `importRe` at `i`; returns the end of the match
(group 1 is the whole match). -/
def matchImportAt (t : Str) (i : Nat) : Option Nat :=
  match litAt t i ("import".data) with
  | none => none
  | some p1 =>
    match ws1 t p1 with
    | none => none
    | some p2 =>
      match litAt t p2 ("module".data) with
      | none => none
      | some p3 =>
        match ws1 t p3 with
        | none => none
        | some p4 =>
          match litAt t p4 ("namespace".data) with
          | none => none
          | some p5 =>
            match ws1 t p5 with
            | none => none
            | some p6 =>
              -- `[^=]+` cannot cross `=`, so it runs to the first `=` and the
              -- following `\s*` is empty
              let e := skipRun (fun c => !(c == '=')) t p6
              if e = p6 then none
              else
                match litAt t e ("=".data) with
                | none => none
                | some p7 =>
                  let p8 := skipRun isJsWs t p7
                  match quoteAt t p8 with
                  | none => none
                  | some q1 =>
                    let s1 := skipRun notQuote t q1
                    if s1 = q1 then none
                    else
                      match quoteAt t s1 with
                      | none => none
                      | some p9 =>
                        let p10 := skipRun isJsWs t p9
                        let p11 := (tryAtClause t p10).getD p10
                        let p12 := skipRun isJsWs t p11
                        litAt t p12 (";".data)

structure ImportMatch where
  stmt : Str
  lastIndex : Nat
deriving DecidableEq

/-- One `importRe.exec(text)` from `lastIndex = i`. -/
def execImport (t : Str) : Nat → Nat → Option ImportMatch
  | 0, _ => none
  | fuel + 1, i =>
    if t.length < i then none
    else
      match matchImportAt t i with
      | some e => some ⟨slice t i e, e⟩
      | none => execImport t fuel (i + 1)

def execImportFrom (t : Str) (l : Nat) : Option ImportMatch :=
  execImport t (t.length + 1 - l) l

/-- Anchored attempt of `moduleRe` at `i` in the statement `s`, returning the
three capture groups (prefix, namespace URI, source path). -/
def matchModuleAt (s : Str) (i : Nat) : Option (Str × Str × Str) :=
  match litAt s i ("import".data) with
  | none => none
  | some p1 =>
    match ws1 s p1 with
    | none => none
    | some p2 =>
      match litAt s p2 ("module".data) with
      | none => none
      | some p3 =>
        match ws1 s p3 with
        | none => none
        | some p4 =>
          match litAt s p4 ("namespace".data) with
          | none => none
          | some p5 =>
            match ws1 s p5 with
            | none => none
            | some p6 =>
              let e := skipRun (fun c => !(isJsWs c) && !(c == '=')) s p6
              if e = p6 then none
              else
                let p7 := skipRun isJsWs s e
                match litAt s p7 ("=".data) with
                | none => none
                | some p8 =>
                  let p9 := skipRun isJsWs s p8
                  match quoteAt s p9 with
                  | none => none
                  | some q1 =>
                    let u := skipRun notQuote s q1
                    if u = q1 then none
                    else
                      match quoteAt s u with
                      | none => none
                      | some p10 =>
                        let p11 := skipRun isJsWs s p10
                        match litAt s p11 ("at".data) with
                        | none => none
                        | some p12 =>
                          match ws1 s p12 with
                          | none => none
                          | some p13 =>
                            match quoteAt s p13 with
                            | none => none
                            | some q2 =>
                              let v := skipRun notQuote s q2
                              if v = q2 then none
                              else
                                match quoteAt s v with
                                | none => none
                                | some p14 =>
                                  let p15 := skipRun isJsWs s p14
                                  match litAt s p15 (";".data) with
                                  | none => none
                                  | some _ => some (slice s p6 e, slice s q1 u, slice s q2 v)

/-- Embeds `moduleRe.exec(imp)` (no `g` flag: stateless leftmost match). -/
def execModule (s : Str) : Nat → Nat → Option (Str × Str × Str)
  | 0, _ => none
  | fuel + 1, i =>
    if s.length < i then none
    else
      match matchModuleAt s i with
      | some r => some r
      | none => execModule s fuel (i + 1)

structure Import where
  pfx : Str      -- source field `prefix` (a keyword in Lean)
  uri : Str
  source : Str
  isJava : Bool
deriving DecidableEq

abbrev ImpMap := List (Str × Import)

/-- The `parseImports` loop.  `l` is `importRe.lastIndex` at entry; the guard
`match.length === 4` always holds when `moduleRe` matches (three groups plus
the full match), which is the `some` case of `execModule`. -/
def parseImportsLoop (t : Str) : Nat → Nat → ImpMap → ImpMap × Nat
  | 0, _, m => (m, 0)
  | fuel + 1, l, m =>
    match execImportFrom t l with
    | none => (m, 0)
    | some im =>
      let m' :=
        if im.stmt ≠ [] then
          match execModule im.stmt (im.stmt.length + 1) 0 with
          | some (pfx, uri, src) =>
            mapSet m pfx ⟨pfx, uri, src, jsSubstring src 0 5 = ("java:".data)⟩
          | none => m
        else m
      parseImportsLoop t fuel im.lastIndex m'

/-- Embeds `parseImports(text)`: the map is cleared first, so the loop starts empty. -/
def parseImports (t : Str) (l : Nat) : ImpMap × Nat :=
  parseImportsLoop t (t.length + 1) l []

/-- The mutable analysis state of a document together with the module-global
`lastIndex` registers of the two shared regexes. -/
structure ScanState where
  syms : SymMap
  imps : ImpMap
  funcLast : Nat
  impsLast : Nat
deriving DecidableEq

/-- Embeds `analyze(text)`: clear and rebuild the symbol map, then the import map. -/
def analyze (st : ScanState) (t : Str) : ScanState :=
  let s := getLocalSymbols t false [] st.funcLast
  let i := parseImports t st.impsLast
  ⟨s.1, i.1, s.2, i.2⟩

def initialState : ScanState := ⟨[], [], 0, 0⟩

def analyzeText (t : Str) : ScanState := analyze initialState t

/-- Embeds `this.localSymbols = Array.from(this.symbolsMap.values())`. -/
def localSymbolsOf (m : SymMap) : List Symbol := m.map (·.2)

/-!  The resolution engine.

The position-to-signature step (`getSignatureFromPosition`) walks the syntax
tree produced by the external parser (the `AST` collaborator), so the
operations below are parameterised by its result: the presence of a parse
tree (`hasAst`) and the derived `{name, arity}` signature, exactly the data
the source reads from it.  Remote transport is a stubbed outcome
(`ReqOutcome`): `failure` covers a request error or a non-200 status, and
`success items` a 200 response with the parsed JSON array.  Each operation
returns its effect trace; a result of `none` means the promise is never
resolved (no `resolve` call runs on that path), `some r` that it resolves
with `r`. -/

structure Sig where
  name : Str
  arity : Nat
deriving DecidableEq

def keyOf (s : Sig) : Str := s.name ++ '#' :: natDigits s.arity

structure QueryParams where
  mpfx : List Str
  uri : List Str
  source : List Str
  base : Str
  pfxParam : Option Str  -- source field `params.prefix` (completion only)
  signature : Option Str
deriving DecidableEq

inductive Effect
  | remoteCall (params : QueryParams)
  | statusNote (up : Bool)
  | logNote (msg : Str)
deriving DecidableEq

inductive ReqOutcome (α : Type)
  | failure
  | success (items : List α)

/-- The push loop of `resolveImports`: prefixes, uris and sources of
the imports kept by the `!imp.isJava || includeJava` filter, in iteration
order (`source` is pushed only when truthy). -/
def resolveImportsLists (l : List Import) (includeJava : Bool) :
    List Str × List Str × List Str :=
  match l with
  | [] => ([], [], [])
  | imp :: rest =>
    let r := resolveImportsLists rest includeJava
    if !imp.isJava || includeJava then
      (imp.pfx :: r.1, imp.uri :: r.2.1,
       if imp.source ≠ [] then imp.source :: r.2.2 else r.2.2)
    else r

def resolveImports (l : List Import) (includeJava : Bool) : QueryParams :=
  let r := resolveImportsLists l includeJava
  ⟨r.1, r.2.1, r.2.2, [], none, none⟩

/-- Embeds `name.split(':')`. -/
def jsSplitChar : Nat → Str → Char → List Str
  | 0, t, _ => [t]
  | fuel + 1, t, sep =>
    match t.findIdx? (· == sep) with
    | none => [t]
    | some i => t.take i :: jsSplitChar fuel (t.drop (i + 1)) sep

/-- The import collection `getParameters` iterates: a prefixed name
restricts the scope to that prefix's import when present, otherwise the
whole import table's values are used. -/
def getParametersScope (sig : Sig) (imps : ImpMap) : List Import :=
  let parts := jsSplitChar (sig.name.length + 1) sig.name ':'
  let scopeOpt : Option (List Import) :=
    if parts.length = 2 then
      match mapGet imps (parts.getD 0 []) with
      | some imp => some [imp]
      | none => none
    else none
  scopeOpt.getD (imps.map (·.2))

/-- Embeds `getParameters(signature, relPath, settings)`: host-language
(`java:`) imports are excluded (`resolveImports(imports, false)`), and the
base path and `name#arity` signature are attached. -/
def getParameters (sig : Sig) (relPath settingsPath : Str) (imps : ImpMap) : QueryParams :=
  let params := resolveImports (getParametersScope sig imps) false
  { params with base := settingsPath ++ '/' :: relPath, signature := some (keyOf sig) }

/-- Markdown string of a local hover answer:
`[`**${symbol.signature}**`, documentation?].join('\n\n')`. -/
def localHoverMd (sym : Symbol) : Str :=
  List.intercalate ("\n\n".data)
    ((("**".data) ++ sym.signature ++ ("**".data)) ::
      (match sym.documentation with | some d => [d] | none => []))

structure HoverRes where
  value : Str  -- markdown content (`kind` is the constant `markdown`)
deriving DecidableEq

structure HoverItem where
  text : Str
  leftLabel : Str
  description : Option Str
  argDescs : List (Str × Str × Str)  -- the `arguments` array: name, type, description
deriving DecidableEq

/-- Markdown of a remote hover item. -/
def remoteHoverMd (d : HoverItem) : Str :=
  List.intercalate ("\n\n".data)
    (((("**".data) ++ d.text ++ ("** as **".data) ++ d.leftLabel ++ ("**".data)) ::
      (match d.description with | some x => [x] | none => [])) ++
      d.argDescs.map (fun a =>
        ("**$".data) ++ a.1 ++ ("** *".data) ++ a.2.1 ++ ("* ".data) ++ a.2.2))

/-- Embeds `getHoverRemote`: on failure `status(false)` then `resolve(null)`; on
success `status(true)` first, then an empty answer is only logged (the
promise is left unresolved). -/
def getHoverRemote (sig : Sig) (relPath settingsPath : Str) (imps : ImpMap)
    (out : ReqOutcome HoverItem) : Option (Option HoverRes) × List Effect :=
  let params := getParameters sig relPath settingsPath imps
  match out with
  | .failure => (some none, [.remoteCall params, .statusNote false])
  | .success [] =>
    (none, [.remoteCall params, .statusNote true,
            .logNote (("hover: no description found for ".data) ++ (params.signature.getD []))])
  | .success (d :: _) =>
    (some (some ⟨remoteHoverMd d⟩), [.remoteCall params, .statusNote true])

/-- Embeds `getHover(position, relPath, settings)` with the syntax-tree lookup
abstracted to its outputs `hasAst` and `sigOpt`. -/
def getHover (hasAst : Bool) (sigOpt : Option Sig) (syms : SymMap) (imps : ImpMap)
    (relPath settingsPath : Str) (out : ReqOutcome HoverItem) :
    Option (Option HoverRes) × List Effect :=
  if !hasAst then (some none, [])
  else
    match sigOpt with
    | none => (some none, [])
    | some sig =>
      match mapGet syms (keyOf sig) with
      | some symbol => (some (some ⟨localHoverMd symbol⟩), [])
      | none => getHoverRemote sig relPath settingsPath imps out

structure Pos where
  line : Int
  character : Int
deriving DecidableEq

structure LocRange where
  start : Pos
  stop : Pos  -- source field `end` (a keyword in Lean)
deriving DecidableEq

structure Location where
  uri : Str
  range : LocRange
deriving DecidableEq

/-- Embeds `TextDocument.positionAt(offset)`: clamp, then line = newline count
before the offset and character = distance from the last newline. -/
def positionAt (t : Str) (off : Int) : Pos :=
  let o := (max 0 (min off (t.length : Int))).toNat
  let pre := t.take o
  ⟨((pre.filter (· == '\n')).length : Int),
   ((pre.reverse.takeWhile (fun c => !(c == '\n'))).length : Int)⟩

/-- Embeds `computeLocation(textDocument, offsets)`. -/
def computeLocation (t : Str) (loc : Int × Int) : LocRange :=
  ⟨positionAt t loc.1, positionAt t loc.2⟩

/-- JavaScript `Number.MAX_VALUE`, used as the end character of a remote
definition range. -/
def numberMaxValue : Int := 2 ^ 1024 - 2 ^ 971

structure DefItem where
  path : Str
deriving DecidableEq

/-- Embeds `gotoDefinitionRemote`.  `fileRead` is the `fs.readFile` outcome for the
resolved module (`none` = read error; the callback's guard `error || !content`
also fires on empty content), and `absPath` the path computed from the first
item's metadata by the platform path library (abstracted as an input; the
`file:` URI encoding is elided).  The re-scan runs the shared `funcDefRe`,
whose `lastIndex` is threaded through as `gl`.  Branches without a `resolve`
call return `none` in the first component. -/
def gotoDefinitionRemote (sig : Sig) (imps : ImpMap) (relPath settingsPath : Str)
    (out : ReqOutcome DefItem) (fileRead : Option Str) (absPath : Str) (gl : Nat) :
    (Option (Option Location) × List Effect) × Nat :=
  let params := getParameters sig relPath settingsPath imps
  match out with
  | .failure => ((some none, [.remoteCall params, .statusNote false]), gl)
  | .success [] =>
    ((none, [.remoteCall params,
             .logNote (("no description found for ".data) ++ (params.signature.getD []))]), gl)
  | .success (_ :: _) =>
    let readFail : (Option (Option Location) × List Effect) × Nat :=
      ((some none, [.remoteCall params, .statusNote true,
                    .logNote (("failed to parse ".data) ++ absPath)]), gl)
    match fileRead with
    | none => readFail
    | some content =>
      if content = [] then readFail
      else
        let r := getLocalSymbol content sig.name sig.arity gl
        match r.1 with
        | some symbol =>
          match symbol.location with
          | some loc =>
            ((some (some ⟨("file://".data) ++ absPath,
                          ⟨⟨loc.1, 0⟩, ⟨loc.2 + 1, numberMaxValue⟩⟩⟩),
              [.remoteCall params, .statusNote true]), r.2)
          | none => ((none, [.remoteCall params, .statusNote true]), r.2)
        | none => ((none, [.remoteCall params, .statusNote true]), r.2)

/-- Embeds `gotoDefinition(position, relPath, textDocument, settings)`: local hit
needs both a table entry and a stored span, otherwise the remote fallback
runs. -/
def gotoDefinition (hasAst : Bool) (sigOpt : Option Sig) (docUri docText : Str)
    (syms : SymMap) (imps : ImpMap) (relPath settingsPath : Str)
    (out : ReqOutcome DefItem) (fileRead : Option Str) (absPath : Str) (gl : Nat) :
    (Option (Option Location) × List Effect) × Nat :=
  if !hasAst then ((some none, []), gl)
  else
    match sigOpt with
    | none => ((some none, []), gl)
    | some sig =>
      match mapGet syms (keyOf sig) with
      | some symbol =>
        match symbol.location with
        | some loc =>
          ((some (some ⟨docUri, computeLocation docText loc⟩), []), gl)
        | none => gotoDefinitionRemote sig imps relPath settingsPath out fileRead absPath gl
      | none => gotoDefinitionRemote sig imps relPath settingsPath out fileRead absPath gl

structure CompletionItem where
  label : Str
  kind : Nat  -- CompletionItemKind: Function = 3, Variable = 6
  data : Str
  insertText : Str
  insertTextFormat : Nat  -- InsertTextFormat.Snippet = 2
  detail : Option Str
  documentation : Option Str
deriving DecidableEq

/-- Embeds `mapCompletions(symbols)`. -/
def mapCompletions (symbols : List Symbol) : List CompletionItem :=
  symbols.map fun s =>
    { label := s.signature,
      kind := if s.type = ("function".data) then 3 else 6,
      data := s.name, insertText := s.snippet, insertTextFormat := 2,
      detail := if truthy s.documentation then some s.name else none,
      documentation := if truthy s.documentation then s.documentation else none }

structure CompItem where
  text : Str
  snippet : Str
  type : Str
  name : Str
  description : Str
deriving DecidableEq

/-- Embeds `item.snippet.replace(/\:\$/g, ':\\$')`. -/
def escapeColonDollar : Str → Str
  | [] => []
  | ':' :: '$' :: rest => ':' :: '\\' :: '$' :: escapeColonDollar rest
  | c :: rest => c :: escapeColonDollar rest

inductive CompResult
  | items (l : List CompletionItem)
  | respError  -- `ResponseError(ErrorCodes.InvalidRequest, error)`
deriving DecidableEq

/-- The query parameters `getCompletions` sends: the whole import table with
host-language imports excluded (`resolveImports(this.imports.values(), false)`),
plus the base path and the optional (truthy) prefix filter. -/
def completionScopeParams (imps : ImpMap) (relPath settingsPath : Str)
    (pfxFilter : Option Str) : QueryParams :=
  let params := resolveImports (imps.map (·.2)) false
  { params with base := settingsPath ++ '/' :: relPath,
                pfxParam := if truthy pfxFilter then pfxFilter else none }

/-- Embeds `getCompletions(prefix, relPath, settings)`: on success the remote items
are converted to `Symbol`s, merged into the symbol map keyed by the item
name, and the answer concatenates local and remote completion lists. -/
def getCompletions (pfxFilter : Option Str) (relPath settingsPath : Str)
    (syms : SymMap) (localSymbols : List Symbol) (imps : ImpMap)
    (out : ReqOutcome CompItem) : (Option CompResult × SymMap) × List Effect :=
  let params := completionScopeParams imps relPath settingsPath pfxFilter
  match out with
  | .failure => ((some .respError, syms), [.remoteCall params, .statusNote false])
  | .success items =>
    let newSyms : List Symbol := items.map fun it =>
      { signature := it.text, type := it.type,
        snippet := escapeColonDollar it.snippet,
        name := it.name, documentation := some it.description,
        location := none }
    let syms' := newSyms.foldl (fun m s => mapSet m s.name s) syms
    ((some (.items (mapCompletions localSymbols ++ mapCompletions newSyms)), syms'),
     [.remoteCall params, .statusNote true])

structure DocSym where
  name : Str
  kind : Nat
  uri : Str
  range : Option LocRange  -- scan-produced symbols always carry a span
deriving DecidableEq

/-- Embeds `mapDocumentSymbols(symbols, textDocument)`. -/
def mapDocumentSymbols (uri docText : Str) (symbols : List Symbol) : List DocSym :=
  symbols.map fun s =>
    { name := s.signature,
      kind := if s.type = ("function".data) then 3 else 6,
      uri := uri, range := s.location.map (computeLocation docText) }

/-- Embeds `getDocumentSymbols(textDocument)` over the document's `localSymbols`. -/
def getDocumentSymbols (uri docText : Str) (localSymbols : List Symbol) : List DocSym :=
  mapDocumentSymbols uri docText localSymbols

/-- Number of connectivity-status notifications in an effect trace. -/
def countStatus (es : List Effect) : Nat :=
  (es.filter (fun e => match e with | .statusNote _ => true | _ => false)).length

/-- Folding `Map.set` over a list of entries (the shape of the scan loops). -/
def setFold {V : Type} (m : List (Str × V)) (entries : List (Str × V)) : List (Str × V) :=
  entries.foldl (fun acc e => mapSet acc e.1 e.2) m

/-! Lemmas about the association-list embedding of JavaScript `Map`. -/

theorem mapGet_cons_self {V : Type} (k : Str) (v : V) (rest : List (Str × V)) :
    mapGet ((k, v) :: rest) k = some v := by
  simp [mapGet]

theorem mapGet_cons_ne {V : Type} {k0 k : Str} (v0 : V) (rest : List (Str × V))
    (h : ¬ k0 = k) : mapGet ((k0, v0) :: rest) k = mapGet rest k := by
  simp [mapGet, h]

theorem mapSet_cons_self {V : Type} (k : Str) (v0 v : V) (rest : List (Str × V)) :
    mapSet ((k, v0) :: rest) k v = (k, v) :: rest := by
  simp [mapSet]

theorem mapSet_cons_ne {V : Type} {k0 k : Str} (v0 : V) (v : V) (rest : List (Str × V))
    (h : ¬ k0 = k) : mapSet ((k0, v0) :: rest) k v = (k0, v0) :: mapSet rest k v := by
  simp [mapSet, h]

theorem mapGet_mapSet_self {V : Type} (m : List (Str × V)) (k : Str) (v : V) :
    mapGet (mapSet m k v) k = some v := by
  induction m with
  | nil => exact mapGet_cons_self k v []
  | cons e rest ih =>
    obtain ⟨k', v'⟩ := e
    by_cases h : k' = k
    · subst h; rw [mapSet_cons_self]; exact mapGet_cons_self _ _ _
    · rw [mapSet_cons_ne _ _ _ h, mapGet_cons_ne _ _ h]; exact ih

theorem mapGet_mapSet_ne {V : Type} (m : List (Str × V)) (k k' : Str) (v : V)
    (h : k' ≠ k) : mapGet (mapSet m k v) k' = mapGet m k' := by
  induction m with
  | nil =>
    show mapGet [(k, v)] k' = none
    rw [mapGet_cons_ne _ _ (fun hh => h hh.symm)]
    rfl
  | cons e rest ih =>
    obtain ⟨k0, v0⟩ := e
    by_cases h0 : k0 = k
    · subst h0
      rw [mapSet_cons_self, mapGet_cons_ne _ _ (fun hh => h hh.symm),
        mapGet_cons_ne _ _ (fun hh => h hh.symm)]
    · rw [mapSet_cons_ne _ _ _ h0]
      by_cases h1 : k0 = k'
      · subst h1; rw [mapGet_cons_self, mapGet_cons_self]
      · rw [mapGet_cons_ne _ _ h1, mapGet_cons_ne _ _ h1]; exact ih

theorem mem_mapSet {V : Type} {m : List (Str × V)} {k : Str} {v : V} {e : Str × V}
    (h : e ∈ mapSet m k v) : e ∈ m ∨ e = (k, v) := by
  induction m with
  | nil =>
    right
    have : e ∈ [(k, v)] := h
    simpa using this
  | cons e0 rest ih =>
    obtain ⟨k0, v0⟩ := e0
    by_cases h0 : k0 = k
    · subst h0
      rw [mapSet_cons_self] at h
      rcases List.mem_cons.mp h with h1 | h1
      · right; exact h1
      · left; exact List.mem_cons_of_mem _ h1
    · rw [mapSet_cons_ne _ _ _ h0] at h
      rcases List.mem_cons.mp h with h1 | h1
      · left; exact h1 ▸ List.mem_cons_self _ _
      · rcases ih h1 with h2 | h2
        · left; exact List.mem_cons_of_mem _ h2
        · right; exact h2

theorem mem_keys_mapSet {V : Type} {m : List (Str × V)} {k a : Str} {v : V} :
    a ∈ (mapSet m k v).map Prod.fst ↔ a ∈ m.map Prod.fst ∨ a = k := by
  induction m with
  | nil =>
    show a ∈ [k] ↔ a ∈ ([] : List Str) ∨ a = k
    rw [List.mem_singleton]
    exact ⟨Or.inr, fun h => h.elim (fun h' => absurd h' (List.not_mem_nil a)) id⟩
  | cons e0 rest ih =>
    obtain ⟨k0, v0⟩ := e0
    by_cases h0 : k0 = k
    · subst h0
      rw [mapSet_cons_self, List.map_cons, List.map_cons]
      simp only [List.mem_cons]
      tauto
    · rw [mapSet_cons_ne _ _ _ h0]
      simp only [List.map_cons, List.mem_cons, ih]
      tauto

theorem nodup_keys_mapSet {V : Type} {m : List (Str × V)} (k : Str) (v : V)
    (h : (m.map Prod.fst).Nodup) : ((mapSet m k v).map Prod.fst).Nodup := by
  induction m with
  | nil =>
    show ([(k, v)].map Prod.fst).Nodup
    simp
  | cons e0 rest ih =>
    obtain ⟨k0, v0⟩ := e0
    rw [List.map_cons, List.nodup_cons] at h
    by_cases h0 : k0 = k
    · subst h0
      rw [mapSet_cons_self]
      exact List.nodup_cons.mpr h
    · rw [mapSet_cons_ne _ _ _ h0, List.map_cons, List.nodup_cons]
      refine ⟨?_, ih h.2⟩
      intro hmem
      rcases mem_keys_mapSet.mp hmem with h' | h'
      · exact h.1 h'
      · exact h0 h'

theorem mapGet_eq_some_mem {V : Type} {m : List (Str × V)} {k : Str} {v : V}
    (h : mapGet m k = some v) : (k, v) ∈ m := by
  induction m with
  | nil => exact absurd h (by simp [mapGet])
  | cons e0 rest ih =>
    obtain ⟨k0, v0⟩ := e0
    by_cases h0 : k0 = k
    · subst h0
      rw [mapGet_cons_self] at h
      cases h
      exact List.mem_cons_self _ _
    · rw [mapGet_cons_ne _ _ h0] at h
      exact List.mem_cons_of_mem _ (ih h)

theorem filter_key_eq_nil {V : Type} {m : List (Str × V)} {k : Str}
    (h : k ∉ m.map Prod.fst) : m.filter (fun e => e.1 = k) = [] := by
  induction m with
  | nil => rfl
  | cons e0 rest ih =>
    rw [List.map_cons, List.mem_cons, not_or] at h
    have hne : ¬ (e0.1 = k) := fun hk => h.1 hk.symm
    rw [List.filter_cons, if_neg (by simpa using hne)]
    exact ih h.2

theorem filter_key_of_nodup {V : Type} {m : List (Str × V)} {k : Str} {v : V}
    (hn : (m.map Prod.fst).Nodup) (h : mapGet m k = some v) :
    m.filter (fun e => e.1 = k) = [(k, v)] := by
  induction m with
  | nil => exact absurd h (by simp [mapGet])
  | cons e0 rest ih =>
    obtain ⟨k0, v0⟩ := e0
    rw [List.map_cons, List.nodup_cons] at hn
    by_cases h0 : k0 = k
    · subst h0
      rw [mapGet_cons_self] at h
      cases h
      rw [List.filter_cons, if_pos (by simp)]
      rw [filter_key_eq_nil hn.1]
    · rw [mapGet_cons_ne _ _ h0] at h
      rw [List.filter_cons, if_neg (by simpa using h0)]
      exact ih hn.2 h

theorem setFold_cons {V : Type} (m : List (Str × V)) (e : Str × V) (rest : List (Str × V)) :
    setFold m (e :: rest) = setFold (mapSet m e.1 e.2) rest := rfl

theorem mapGet_setFold {V : Type} (entries : List (Str × V)) (m : List (Str × V)) (k : Str) :
    mapGet (setFold m entries) k =
      match (entries.filter (fun e => e.1 = k)).getLast? with
      | some e => some e.2
      | none => mapGet m k := by
  induction entries generalizing m with
  | nil => rfl
  | cons e0 rest ih =>
    obtain ⟨k0, v0⟩ := e0
    rw [setFold_cons, ih]
    by_cases h0 : k0 = k
    · subst h0
      rcases hfil : rest.filter (fun e => e.1 = k0) with _ | ⟨x, xs⟩
      · rw [List.filter_cons, if_pos (by simp), hfil]
        simp [mapGet_mapSet_self]
      · rw [List.filter_cons, if_pos (by simp), hfil, List.getLast?_cons_cons]
        rcases hL : (x :: xs).getLast? with _ | e
        · exact absurd (List.getLast?_eq_none_iff.mp hL) (by simp)
        · rfl
    · rcases hfil : rest.filter (fun e => e.1 = k) with _ | ⟨x, xs⟩
      · rw [List.filter_cons, if_neg (by simpa using h0), hfil]
        simp [mapGet_mapSet_ne _ _ _ _ (Ne.symm h0)]
      · rw [List.filter_cons, if_neg (by simpa using h0), hfil]
        rcases hL : (x :: xs).getLast? with _ | e
        · exact absurd (List.getLast?_eq_none_iff.mp hL) (by simp)
        · rfl

/-! Lemmas about the scan loops. -/

theorem buildSymbol_location_isSome (t : Str) (fd : FuncMatch) (lc : Bool) :
    ((buildSymbol t fd lc).2.location).isSome = true := rfl

theorem buildSymbol_name_eq_key (t : Str) (fd : FuncMatch) (lc : Bool) :
    (buildSymbol t fd lc).2.name = (buildSymbol t fd lc).1 := rfl

theorem getLocalSymbolsLoop_eq_setFold (t : Str) (lc : Bool) :
    ∀ (fuel l : Nat) (m : SymMap),
      (getLocalSymbolsLoop t lc fuel l m).1 = setFold m (scanEntriesLoop t lc fuel l) := by
  intro fuel
  induction fuel with
  | zero => intro l m; rfl
  | succ fuel ih =>
    intro l m
    simp only [getLocalSymbolsLoop, scanEntriesLoop]
    rcases hfd : execFuncDefFrom t l with _ | fd
    · rfl
    · by_cases hg : fd.g2 = []
      · simp [hg, ih]
      · simp [hg, ih, setFold_cons]

theorem symsLoop_forall (t : Str) (lc : Bool) (P : Str × Symbol → Prop)
    (hbuild : ∀ fd, P (buildSymbol t fd lc)) :
    ∀ (fuel l : Nat) (m : SymMap), (∀ e ∈ m, P e) →
      ∀ e ∈ (getLocalSymbolsLoop t lc fuel l m).1, P e := by
  intro fuel
  induction fuel with
  | zero => intro l m hm; exact hm
  | succ fuel ih =>
    intro l m hm
    simp only [getLocalSymbolsLoop]
    rcases hfd : execFuncDefFrom t l with _ | fd
    · exact hm
    · by_cases hg : fd.g2 = []
      · simp only [hg, ne_eq, not_true_eq_false, if_false]
        exact ih _ _ hm
      · simp only [hg, ne_eq, not_false_eq_true, if_true]
        refine ih _ _ ?_
        intro e he
        rcases mem_mapSet he with h1 | h1
        · exact hm e h1
        · exact h1 ▸ hbuild fd

theorem symsLoop_nodup (t : Str) (lc : Bool) :
    ∀ (fuel l : Nat) (m : SymMap), (m.map Prod.fst).Nodup →
      (((getLocalSymbolsLoop t lc fuel l m).1).map Prod.fst).Nodup := by
  intro fuel
  induction fuel with
  | zero => intro l m hm; exact hm
  | succ fuel ih =>
    intro l m hm
    simp only [getLocalSymbolsLoop]
    rcases hfd : execFuncDefFrom t l with _ | fd
    · exact hm
    · by_cases hg : fd.g2 = []
      · simp only [hg, ne_eq, not_true_eq_false, if_false]
        exact ih _ _ hm
      · simp only [hg, ne_eq, not_false_eq_true, if_true]
        exact ih _ _ (nodup_keys_mapSet _ _ hm)

theorem impsLoop_nodup (t : Str) :
    ∀ (fuel l : Nat) (m : ImpMap), (m.map Prod.fst).Nodup →
      (((parseImportsLoop t fuel l m).1).map Prod.fst).Nodup := by
  intro fuel
  induction fuel with
  | zero => intro l m hm; exact hm
  | succ fuel ih =>
    intro l m hm
    simp only [parseImportsLoop]
    rcases him : execImportFrom t l with _ | im
    · exact hm
    · by_cases hs : im.stmt = []
      · simp only [hs, ne_eq, not_true_eq_false, if_false]
        exact ih _ _ hm
      · simp only [hs, ne_eq, not_false_eq_true, if_true]
        rcases hmod : execModule im.stmt (im.stmt.length + 1) 0 with _ | r
        · exact ih _ _ hm
        · obtain ⟨pfx, uri, src⟩ := r
          exact ih _ _ (nodup_keys_mapSet _ _ hm)

theorem values_filter_name {m : SymMap} {k : Str}
    (hk : ∀ e ∈ m, e.2.name = e.1) :
    (localSymbolsOf m).filter (fun s => s.name = k) =
      (m.filter (fun e => e.1 = k)).map Prod.snd := by
  induction m with
  | nil => rfl
  | cons e0 rest ih =>
    have h0 : e0.2.name = e0.1 := hk e0 (List.mem_cons_self _ _)
    have ihr := ih (fun e he => hk e (List.mem_cons_of_mem _ he))
    show (e0.2 :: localSymbolsOf rest).filter (fun s => s.name = k) = _
    by_cases hke : e0.1 = k
    · rw [List.filter_cons, if_pos (by simp [h0, hke]),
        List.filter_cons, if_pos (by simp [hke]), List.map_cons, ihr]
    · rw [List.filter_cons, if_neg (by simp [h0, hke]),
        List.filter_cons, if_neg (by simp [hke]), ihr]

/-- Every entry a scan puts in the symbol table carries a source span. -/
theorem scan_symbol_has_location {t key : Str} {s : Symbol}
    (h : mapGet (analyzeText t).syms key = some s) : s.location.isSome = true := by
  have hmem : (key, s) ∈ (analyzeText t).syms := mapGet_eq_some_mem h
  exact symsLoop_forall t false (fun e => e.2.location.isSome = true)
    (fun fd => buildSymbol_location_isSome t fd false)
    (t.length + 1) 0 [] (fun e he => absurd he (List.not_mem_nil e)) (key, s) hmem

/-- Any prefix in the scope lists assembled with `includeJava = false` comes
from a non-host-binding import of the iterated collection. -/
theorem mem_mpfx_resolveImports {l : List Import} {q : Str}
    (h : q ∈ (resolveImportsLists l false).1) :
    ∃ i ∈ l, i.isJava = false ∧ i.pfx = q := by
  induction l with
  | nil => exact absurd h (List.not_mem_nil q)
  | cons imp rest ih =>
    by_cases hj : imp.isJava
    · rw [resolveImportsLists] at h
      simp only [hj, Bool.not_true, Bool.false_or] at h
      obtain ⟨i, hi, hji, hpi⟩ := ih h
      exact ⟨i, List.mem_cons_of_mem _ hi, hji, hpi⟩
    · rw [resolveImportsLists] at h
      simp only [hj, Bool.not_false, Bool.true_or, if_true] at h
      rcases List.mem_cons.mp h with h1 | h1
      · exact ⟨imp, List.mem_cons_self _ _, Bool.not_eq_true _ ▸ (by simpa using hj), h1.symm⟩
      · obtain ⟨i, hi, hji, hpi⟩ := ih h1
        exact ⟨i, List.mem_cons_of_mem _ hi, hji, hpi⟩

/-! Concrete documents used by the claims below. -/

/-- The specification's own scenario text
`declare function local:add($a, $b) { $a + $b };`. -/
def c1Text : Str := ("declare function local:add($a, $b) \x7b $a + $b \x7d;").data

/-- What the scan actually stores for `c1Text`: parameters are joined back
with a bare comma in the signature, and the snippet escapes the parameter
sigils (rendered, it is `local:add(${1:\$a}, ${2:\$b})`). -/
def c1Symbol : Symbol :=
  { signature := ("local:add($a,$b)").data
    type := ("function".data)
    name := ("local:add#2").data
    snippet := ("local:add($\x7b1:\\$a\x7d, $\x7b2:\\$b\x7d)").data
    documentation := none
    location := some (27, 33) }

def c1Sig : Sig := ⟨("local:add").data, 2⟩

/-- A definition whose parameter-list opening delimiter is never closed. -/
def c8Text : Str := ("declare function local:f($a").data

/-- A module text used as a remote `getLocalSymbol` target. -/
def c6TextA : Str := ("declare function local:add($a, $b) 1;").data

/-- A second document analyzed after the remote lookup. -/
def c6TextB : Str := ("declare function local:f($x) 2;").data

/-- A definition whose first parameter has no `$`-token. -/
def c7Text : Str := ("declare function local:f(a, $b) 1;").data

/-- Two well-formed definitions sharing the key `local:f#1`. -/
def c10Text : Str :=
  ("declare function local:f($a) 1; declare function local:f($b) 2;").data

def c10SymA : Symbol :=
  { signature := ("local:f($a)").data, type := ("function".data)
    name := ("local:f#1").data, snippet := ("local:f($\x7b1:\\$a\x7d)").data
    documentation := none, location := some (25, 27) }

def c10SymB : Symbol :=
  { signature := ("local:f($b)").data, type := ("function".data)
    name := ("local:f#1").data, snippet := ("local:f($\x7b1:\\$b\x7d)").data
    documentation := none, location := some (57, 59) }

/-- The specification's duplicate-prefix import scenario. -/
def c9Text : Str :=
  ("import module namespace x = \"uri1\" at \"a.xqm\"; import module namespace x = \"uri2\" at \"b.xqm\";").data

/-- An import table whose only entry is a host-language (`java:`) binding. -/
def c4Imps : ImpMap :=
  [(("j").data,
    ⟨("j").data, ("http://example.com/java").data, ("java:org.example.Mod").data, true⟩)]

/-! Claim theorems. -/

/-- C1 (counterexample): for the scenario text, the stored signature is
`local:add($a,$b)` — not `local:add($a, $b)` as claimed — and the stored
snippet escapes the dollar sign of each placeholder — it is not
`local:add(${1:$a}, ${2:$b})` as claimed. -/
theorem c1_counterexample :
    ((mapGet (analyzeText c1Text).syms (("local:add#2").data)).map Symbol.signature =
        some (("local:add($a,$b)").data) ∧
      (mapGet (analyzeText c1Text).syms (("local:add#2").data)).map Symbol.snippet =
        some (("local:add($\x7b1:\\$a\x7d, $\x7b2:\\$b\x7d)").data)) ∧
    ¬ ((mapGet (analyzeText c1Text).syms (("local:add#2").data)).map Symbol.signature =
        some (("local:add($a, $b)").data)) ∧
    ¬ ((mapGet (analyzeText c1Text).syms (("local:add#2").data)).map Symbol.snippet =
        some (("local:add($\x7b1:$a\x7d, $\x7b2:$b\x7d)").data)) := by
  decide

/-- C1 (amended): the scan performed by `analyze` on the scenario text yields
exactly one symbol, keyed `local:add#2`, whose signature is
`local:add($a,$b)` and whose snippet is `local:add(${1:\$a}, ${2:\$b})`. -/
theorem c1_amended :
    (analyzeText c1Text).syms = [(("local:add#2").data, c1Symbol)] := by
  decide

/-- C8 (divergence): scanning a text whose parameter list is never closed
still terminates, but the malformed definition is not skipped: the `-1`
sentinel of `findMatchingParen` flows into `substring`, whose clamp-and-swap
semantics turn the text before the parameter list into the single argument,
and a bogus entry `local:f#1` is recorded. -/
theorem c8_divergence :
    (analyzeText c8Text).syms =
      [(("local:f#1").data,
        { signature := ("local:f(declare function local:f()").data
          type := ("function".data)
          name := ("local:f#1").data
          snippet := ("local:f()").data
          documentation := none
          location := some (25, -1) })] := by
  decide

/-- C5 (divergence): in the definition-specific remote follow-up, an
unreadable module file resolves to a null answer as the claim states, but
when the re-scan finds no matching definition no branch ever resolves the
promise: the query stays unanswered instead of yielding null. -/
theorem c5_divergence :
    ((gotoDefinitionRemote c1Sig [] [] []
        (.success [⟨("content/file.xqm").data⟩]) none (("/db/file.xqm").data) 0).1.1
      = some none) ∧
    ((gotoDefinitionRemote c1Sig [] [] []
        (.success [⟨("content/file.xqm").data⟩]) (some (("nothing here").data))
        (("/db/file.xqm").data) 0).1.1 = none) := by
  decide

/-- C6 (divergence): `getLocalSymbol` returns early through the shared
`funcDefRe` and leaves its `lastIndex` at 27; a subsequent `analyze` scan
started from that lingering position misses the document's only definition,
whereas the same scan from the reset position finds it.  The final conjunct
is the part of the claim that does hold: a completed scan resets the
position to 0, so an immediately repeated scan returns identical tables. -/
theorem c6_divergence :
    ((getLocalSymbol c6TextA (("local:add").data) 2 0).2 = 27) ∧
    ((getLocalSymbols c6TextB false []
        ((getLocalSymbol c6TextA (("local:add").data) 2 0).2)).1 = []) ∧
    ((getLocalSymbols c6TextB false [] 0).1 ≠ []) ∧
    ((getLocalSymbols c6TextB false [] ((getLocalSymbols c6TextB false [] 0).2)).1
      = (getLocalSymbols c6TextB false [] 0).1) := by
  decide

/-- C7 (counterexample): for `declare function local:f(a, $b) 1;` the first
parameter contributes no placeholder and the only placeholder is numbered 2
(its parameter position), not 1 as consecutive numbering would require. -/
theorem c7_counterexample :
    ((mapGet (analyzeText c7Text).syms (("local:f#2").data)).map Symbol.snippet =
        some (("local:f($\x7b2:\\$b\x7d)").data)) ∧
    ¬ ((mapGet (analyzeText c7Text).syms (("local:f#2").data)).map Symbol.snippet =
        some (("local:f($\x7b1:\\$b\x7d)").data)) := by
  decide

/-- C7 (amended): a snippet contains one placeholder per parameter whose text
has a `paramRe` token, and each placeholder is numbered by the 1-based
position of its parameter — so skipped parameters leave gaps in the
numbering instead of the numbers being consecutive. -/
theorem c7_amended (args : List Str) (k : Nat) (tpl : Str) :
    tpl ∈ getSnippetTemplates args k ↔
      ∃ i a tok, args[i]? = some a ∧ paramFirst a = some tok ∧
        tpl = mkTemplate (k + i + 1) tok := by
  induction args generalizing k with
  | nil =>
    simp only [getSnippetTemplates, List.not_mem_nil, false_iff]
    rintro ⟨i, a, tok, h1, _, _⟩
    rw [List.getElem?_nil] at h1
    cases h1
  | cons a0 rest ih =>
    rcases hp : paramFirst a0 with _ | tok0
    · simp only [getSnippetTemplates, hp]
      rw [ih]
      constructor
      · rintro ⟨i, a, tok, h1, h2, h3⟩
        refine ⟨i + 1, a, tok, by simpa using h1, h2, ?_⟩
        rw [h3]
        congr 1
        omega
      · rintro ⟨i, a, tok, h1, h2, h3⟩
        cases i with
        | zero =>
          rw [List.getElem?_cons_zero] at h1
          cases h1
          rw [hp] at h2
          cases h2
        | succ i =>
          rw [List.getElem?_cons_succ] at h1
          refine ⟨i, a, tok, h1, h2, ?_⟩
          rw [h3]
          congr 1
          omega
    · simp only [getSnippetTemplates, hp, List.mem_cons]
      rw [ih]
      constructor
      · rintro (h | ⟨i, a, tok, h1, h2, h3⟩)
        · exact ⟨0, a0, tok0, List.getElem?_cons_zero, hp, by rw [h]⟩
        · refine ⟨i + 1, a, tok, by simpa using h1, h2, ?_⟩
          rw [h3]
          congr 1
          omega
      · rintro ⟨i, a, tok, h1, h2, h3⟩
        cases i with
        | zero =>
          rw [List.getElem?_cons_zero] at h1
          cases h1
          rw [hp] at h2
          cases h2
          left
          rw [h3]
        | succ i =>
          rw [List.getElem?_cons_succ] at h1
          right
          refine ⟨i, a, tok, h1, h2, ?_⟩
          rw [h3]
          congr 1
          omega

/-- C2: when the derived signature's key hits the document's own symbol
table (built by `analyze`), `getHover` and `gotoDefinition` answer from the
local entry with an empty effect trace: no remote request and no
connectivity-status notification, whatever the remote outcome would be. -/
theorem c2_local_first (t : Str) (sig : Sig) (s : Symbol)
    (docUri relPath settingsPath : Str) (impsH impsG : ImpMap)
    (outH : ReqOutcome HoverItem) (outD : ReqOutcome DefItem)
    (fileRead : Option Str) (absPath : Str) (gl : Nat)
    (h : mapGet (analyzeText t).syms (keyOf sig) = some s) :
    getHover true (some sig) (analyzeText t).syms impsH relPath settingsPath outH
      = (some (some ⟨localHoverMd s⟩), []) ∧
    ∃ loc, s.location = some loc ∧
      gotoDefinition true (some sig) docUri t (analyzeText t).syms impsG relPath
          settingsPath outD fileRead absPath gl
        = ((some (some ⟨docUri, computeLocation t loc⟩), []), gl) := by
  have hloc := scan_symbol_has_location h
  rcases Option.isSome_iff_exists.mp hloc with ⟨loc, hl⟩
  refine ⟨?_, loc, hl, ?_⟩
  · simp [getHover, h]
  · simp [gotoDefinition, h, hl]

/-- C2 witness: the hit `local:add#2` in the scan of the scenario text. -/
theorem c2_local_first_witness :
    mapGet (analyzeText c1Text).syms (keyOf c1Sig) = some c1Symbol ∧
    getHover true (some c1Sig) (analyzeText c1Text).syms [] [] [] .failure
      = (some (some ⟨localHoverMd c1Symbol⟩), []) :=
  ⟨by decide,
   (c2_local_first c1Text c1Sig c1Symbol [] [] [] [] [] .failure .failure
      none [] 0 (by decide)).1⟩

/-- C3 (counterexample): a definition round trip that succeeds with an empty
item list emits no connectivity-status notification at all, not exactly one. -/
theorem c3_counterexample :
    ¬ (countStatus ((gotoDefinitionRemote c1Sig [] [] []
        (.success ([] : List DefItem)) none [] 0).1.2) = 1) := by
  decide

/-- C3 (amended): hover and completion round trips emit exactly one
connectivity-status notification on every outcome, the empty successful
answer included; a definition round trip emits exactly one on transport
failure and on non-empty success, but none when the lookup succeeds with an
empty item list. -/
theorem c3_amended :
    ∀ (sig : Sig) (imps : ImpMap) (relPath sp : Str) (outH : ReqOutcome HoverItem)
      (pfxF : Option Str) (syms : SymMap) (locals : List Symbol)
      (outC : ReqOutcome CompItem) (fr : Option Str) (ap : Str) (gl : Nat)
      (d : DefItem) (ds : List DefItem),
      countStatus (getHoverRemote sig relPath sp imps outH).2 = 1 ∧
      countStatus (getCompletions pfxF relPath sp syms locals imps outC).2 = 1 ∧
      countStatus ((gotoDefinitionRemote sig imps relPath sp .failure fr ap gl).1.2) = 1 ∧
      countStatus ((gotoDefinitionRemote sig imps relPath sp
          (.success (d :: ds)) fr ap gl).1.2) = 1 ∧
      countStatus ((gotoDefinitionRemote sig imps relPath sp
          (.success []) fr ap gl).1.2) = 0 := by
  intro sig imps relPath sp outH pfxF syms locals outC fr ap gl d ds
  refine ⟨?_, ?_, ?_, ?_, ?_⟩
  · cases outH with
    | failure => rfl
    | success items => cases items with | nil => rfl | cons x xs => rfl
  · cases outC with
    | failure => rfl
    | success items => rfl
  · rfl
  · cases fr with
    | none => rfl
    | some content =>
      by_cases hc : content = []
      · subst hc; rfl
      · simp only [gotoDefinitionRemote, if_neg hc]
        rcases hs : (getLocalSymbol content sig.name sig.arity gl).1 with _ | sym
        · simp [hs, countStatus]
        · rcases hl : sym.location with _ | loc <;> simp [hs, hl, countStatus]
  · rfl

/-- C4 (counterexample): with an import table whose only entry is a
host-language binding, the scope sent by a completion request does not
contain its prefix — completions do not include host-binding imports. -/
theorem c4_counterexample :
    ¬ (("j").data ∈ (completionScopeParams c4Imps [] [] none).mpfx) := by
  decide

/-- Any import iterated for a remote query is a value of the import table. -/
theorem getParametersScope_subset {sig : Sig} {imps : ImpMap} {i : Import}
    (h : i ∈ getParametersScope sig imps) : i ∈ imps.map Prod.snd := by
  rw [getParametersScope] at h
  by_cases h2 : (jsSplitChar (sig.name.length + 1) sig.name ':').length = 2
  · rw [if_pos h2] at h
    rcases hm : mapGet imps ((jsSplitChar (sig.name.length + 1) sig.name ':').getD 0 [])
        with _ | imp0
    · rw [hm] at h
      exact h
    · rw [hm] at h
      have : i = imp0 := by simpa using h
      subst this
      exact List.mem_map_of_mem Prod.snd (mapGet_eq_some_mem hm)
  · rw [if_neg h2] at h
    exact h

/-- C4 (amended): host-language-binding imports are excluded from the scope
of hover and definition lookups and of completion requests alike — every
call site of `resolveImports` passes `includeJava = false`. -/
theorem c4_amended (imps : ImpMap) (p : Str) (sig : Sig) (relPath sp : Str)
    (pfxF : Option Str)
    (h : ∀ e ∈ imps, e.2.pfx = p → e.2.isJava = true) :
    p ∉ (getParameters sig relPath sp imps).mpfx ∧
    p ∉ (completionScopeParams imps relPath sp pfxF).mpfx := by
  have hvals : ∀ i ∈ imps.map Prod.snd, i.pfx = p → i.isJava = true := by
    intro i hi hp
    obtain ⟨e, he, hei⟩ := List.mem_map.mp hi
    have := h e he (by rw [hei]; exact hp)
    rwa [hei] at this
  constructor
  · intro hmem
    have hmem' : p ∈ (resolveImportsLists (getParametersScope sig imps) false).1 := hmem
    obtain ⟨i, hi, hji, hpi⟩ := mem_mpfx_resolveImports hmem'
    have := hvals i (getParametersScope_subset hi) hpi
    rw [this] at hji
    cases hji
  · intro hmem
    have hmem' : p ∈ (resolveImportsLists (imps.map (·.2)) false).1 := hmem
    obtain ⟨i, hi, hji, hpi⟩ := mem_mpfx_resolveImports hmem'
    have := hvals i hi hpi
    rw [this] at hji
    cases hji

/-- C4 witness: the amended exclusion at the concrete host-binding table. -/
theorem c4_amended_witness :
    (∀ e ∈ c4Imps, e.2.pfx = ("j").data → e.2.isJava = true) ∧
    (("j").data ∉ (getParameters ⟨("j:f").data, 1⟩ [] [] c4Imps).mpfx ∧
     ("j").data ∉ (completionScopeParams c4Imps [] [] none).mpfx) :=
  ⟨by decide,
   c4_amended c4Imps (("j").data) ⟨("j:f").data, 1⟩ [] [] none (by decide)⟩

/-- C9: after `analyze`, the import table has at most one entry per prefix —
its key list is duplicate-free for every prior document state and text —
and for the specification's duplicate-prefix scenario it holds exactly one
entry for `x`, carrying the later declaration's URI and source (last-wins). -/
theorem c9_import_last_wins :
    (∀ (st : ScanState) (t : Str), (((analyze st t).imps).map Prod.fst).Nodup) ∧
    (analyzeText c9Text).imps =
      [(("x").data, ⟨("x").data, ("uri2").data, ("b.xqm").data, false⟩)] := by
  refine ⟨?_, by decide⟩
  intro st t
  exact impsLoop_nodup t (t.length + 1) st.impsLast [] List.nodup_nil

/-- C10: when the match sequence of a scan contains exactly two definitions
with the same `name#arity` key, the rebuilt symbol table maps that key to
the later one, holds a single entry for it, the values list keeps only the
later symbol, and the document-symbol listing contains its rendering. -/
theorem c10_duplicate_key_last_wins (t docUri : Str) (k : Str) (e1 e2 : Str × Symbol)
    (h : (scanEntries t 0).filter (fun e => e.1 = k) = [e1, e2]) :
    mapGet (analyzeText t).syms k = some e2.2 ∧
    ((analyzeText t).syms).filter (fun e => e.1 = k) = [(k, e2.2)] ∧
    (localSymbolsOf (analyzeText t).syms).filter (fun s => s.name = k) = [e2.2] ∧
    (⟨e2.2.signature, if e2.2.type = ("function".data) then 3 else 6, docUri,
        e2.2.location.map (computeLocation t)⟩ : DocSym) ∈
      getDocumentSymbols docUri t (localSymbolsOf (analyzeText t).syms) := by
  have hsyms : (analyzeText t).syms = setFold [] (scanEntries t 0) :=
    getLocalSymbolsLoop_eq_setFold t false (t.length + 1) 0 []
  have hget : mapGet (analyzeText t).syms k = some e2.2 := by
    rw [hsyms, mapGet_setFold, h]
    rfl
  have hnodup : (((analyzeText t).syms).map Prod.fst).Nodup :=
    symsLoop_nodup t false (t.length + 1) 0 [] List.nodup_nil
  have hfil : ((analyzeText t).syms).filter (fun e => e.1 = k) = [(k, e2.2)] :=
    filter_key_of_nodup hnodup hget
  have hkeys : ∀ e ∈ (analyzeText t).syms, e.2.name = e.1 :=
    symsLoop_forall t false (fun e => e.2.name = e.1)
      (fun fd => buildSymbol_name_eq_key t fd false)
      (t.length + 1) 0 [] (fun e he => absurd he (List.not_mem_nil e))
  have hvals : (localSymbolsOf (analyzeText t).syms).filter (fun s => s.name = k)
      = [e2.2] := by
    rw [values_filter_name hkeys, hfil]
    rfl
  refine ⟨hget, hfil, hvals, ?_⟩
  have hmem : e2.2 ∈ localSymbolsOf (analyzeText t).syms := by
    have hin : (k, e2.2) ∈ (analyzeText t).syms :=
      (List.mem_filter.mp (hfil ▸ List.mem_singleton.mpr rfl)).1
    exact List.mem_map.mpr ⟨(k, e2.2), hin, rfl⟩
  exact List.mem_map_of_mem _ hmem

/-- C10 witness: the two same-key definitions of `c10Text`. -/
theorem c10_duplicate_key_last_wins_witness :
    ((scanEntries c10Text 0).filter (fun e => e.1 = ("local:f#1").data)
        = [(("local:f#1").data, c10SymA), (("local:f#1").data, c10SymB)]) ∧
    mapGet (analyzeText c10Text).syms (("local:f#1").data) = some c10SymB :=
  ⟨by decide,
   (c10_duplicate_key_last_wins c10Text [] (("local:f#1").data)
      ((("local:f#1").data, c10SymA)) ((("local:f#1").data, c10SymB)) (by decide)).1⟩

end XQLS
